import Mathlib

/-!
Shallow embedding of `src/interwebz/api.py` (the command-sanitization
pipeline of the interwebz repository).

Strings are modelled as `List Char`; Python `len` counts characters, as
does `List.length`.  Python's Unicode-sensitive primitives (`str.lower`,
`str.isprintable`, `int()` digit recognition, whitespace stripping) are
modelled faithfully for the ASCII / Latin-1 range; exotic non-ASCII
digit forms and case foldings are outside the model's scope and noted at
each definition.

The tokenizer embedded here is the one the code actually runs: line 123
of `api.py` builds `shlex(command, True)`, whose second positional
parameter is `infile`, not `posix`, so tokenization uses a fresh
non-POSIX `shlex` with default settings (the separately configured
POSIX lexer `lex` of lines 120-122 is discarded unused).  The state
machine below is `shlex.read_token` from CPython's `shlex.py`
specialized to `posix=False`, `punctuation_chars=''`,
`whitespace_split=False`, `commenters='#'`, default wordchars and
whitespace, driven to a token list by `iter(.get_token, '')`.
-/

deriving instance DecidableEq for Except

namespace Interwebz

/-- Python strings, modelled as lists of characters. -/
abbrev Str := List Char

/-- `max_batch_size = 20` from `api.py`. -/
def max_batch_size : Nat := 20

/-- `max_arguments = 25` from `api.py`. -/
def max_arguments : Nat := 25

/-- `max_argument_size = 256` from `api.py`. -/
def max_argument_size : Nat := 256

/-- `escapes.get(c, c)`: the escape table `{'n': LF, 'r': CR, 't': TAB, 'b': BS, 'a': BEL}`
with the default of returning `c` itself. -/
def escapes_get (c : Char) : Char :=
  if c = 'n' then '\n'
  else if c = 'r' then '\r'
  else if c = 't' then '\t'
  else if c = 'b' then '\x08'
  else if c = 'a' then '\x07'
  else c

/-- `unescapes.get(c, c)`: the reverse escape table (control character to
letter), with the default of returning `c` itself. -/
def unescapes_get (c : Char) : Char :=
  if c = '\n' then 'n'
  else if c = '\r' then 'r'
  else if c = '\t' then 't'
  else if c = '\x08' then 'b'
  else if c = '\x07' then 'a'
  else c

/-- Python `str.lower`, modelled for ASCII (`Char.toLower` maps `A`-`Z` to
`a`-`z` and leaves everything else unchanged; Unicode-only case foldings
such as the Kelvin sign are outside the model). -/
def pyLower (s : Str) : Str := s.map Char.toLower

/-- Membership in `shlex.wordchars` with default (non-POSIX) settings:
ASCII letters, ASCII digits and underscore. -/
def shlexIsWord (c : Char) : Bool :=
  (('a' ≤ c && c ≤ 'z') || ('A' ≤ c && c ≤ 'Z') || ('0' ≤ c && c ≤ '9') || c == '_')

/-- Membership in `shlex.whitespace` (default): space, tab, CR, LF. -/
def shlexIsSpace (c : Char) : Bool :=
  c == ' ' || c == '\t' || c == '\r' || c == '\n'

/-- Membership in `shlex.quotes` (default): single and double quote. -/
def shlexIsQuote (c : Char) : Bool :=
  c == '\'' || c == '"'

mutual

/-- `shlex.read_token` in whitespace state (`state == ' '`), non-POSIX,
no punctuation chars, `whitespace_split=False`, commenters `'#'`:
whitespace is skipped, `#` consumes the rest of the line, a wordchar
starts a word, a quote starts a quoted token that will retain its
quotes, and any other character is emitted as a single-character token. -/
def lexWs : Str → Except Str (List Str)
  | [] => .ok []
  | c :: rest =>
    if shlexIsSpace c then lexWs rest
    else if c = '#' then lexCommentWs rest
    else if shlexIsWord c then lexWord [c] rest
    else if shlexIsQuote c then lexQuote c [c] rest
    else (lexWs rest).map (fun ts => [c] :: ts)

/-- `shlex.read_token` inside a `#` comment reached from whitespace state:
`instream.readline()` consumes up to and including the newline, then the
lexer continues in whitespace state. -/
def lexCommentWs : Str → Except Str (List Str)
  | [] => .ok []
  | c :: rest => if c = '\n' then lexWs rest else lexCommentWs rest

/-- `shlex.read_token` in word state (`state == 'a'`), non-POSIX: the
accumulated token `tok` is extended by wordchars and by quote characters,
broken by whitespace, interrupted (but not ended) by a `#` comment which
consumes the rest of the line, and ended by any other character, which is
pushed back and emitted as the next token by `get_token`'s pushback queue. -/
def lexWord (tok : Str) : Str → Except Str (List Str)
  | [] => .ok [tok]
  | c :: rest =>
    if shlexIsSpace c then (lexWs rest).map (fun ts => tok :: ts)
    else if c = '#' then lexCommentWord tok rest
    else if shlexIsWord c || shlexIsQuote c then lexWord (tok ++ [c]) rest
    else (lexWs rest).map (fun ts => tok :: [c] :: ts)

/-- `shlex.read_token` inside a `#` comment reached from word state: the
line remainder is consumed and the word continues (non-POSIX keeps the
current token open across the comment). -/
def lexCommentWord (tok : Str) : Str → Except Str (List Str)
  | [] => .ok [tok]
  | c :: rest => if c = '\n' then lexWord tok rest else lexCommentWord tok rest

/-- `shlex.read_token` in quote state, non-POSIX: every character up to
the matching quote is accumulated verbatim (the escape character has no
effect outside POSIX mode), the closing quote is kept in the token, and
end of input raises `ValueError('No closing quotation')`. -/
def lexQuote (q : Char) (tok : Str) : Str → Except Str (List Str)
  | [] => .error ("No closing quotation").data
  | c :: rest =>
    if c = q then (lexWs rest).map (fun ts => (tok ++ [q]) :: ts)
    else lexQuote q (tok ++ [c]) rest

end

/-- `list(iter(shlex(command, True).get_token, ''))` from
`execute_commands`: the full token stream of the non-POSIX default
lexer, or the `ValueError` message for an unterminated quote. -/
def shlex_tokens (command : Str) : Except Str (List Str) := lexWs command

/-- Python whitespace as stripped by `int()` (`Py_UNICODE_ISSPACE`). -/
def pyIsSpace (c : Char) : Bool :=
  let n := c.toNat
  (9 ≤ n && n ≤ 13) || n == 32 || (28 ≤ n && n ≤ 31) || n == 0x85 || n == 0xa0 ||
    n == 0x1680 || (0x2000 ≤ n && n ≤ 0x200a) || n == 0x2028 || n == 0x2029 ||
    n == 0x202f || n == 0x205f || n == 0x3000

/-- ASCII decimal digit test (Python `int()` also accepts non-ASCII
Unicode decimal digits, which are outside the model's scope). -/
def isDecDigit (c : Char) : Bool :=
  48 ≤ c.toNat && c.toNat ≤ 57

/-- Numeric value of an ASCII decimal digit. -/
def digitVal (c : Char) : Nat := c.toNat - 48

/-- Value of an ASCII hex digit, if it is one (code points 48-57 are
`0`-`9`, 97-102 are `a`-`f`, 65-70 are `A`-`F`). -/
def hexDigitVal (c : Char) : Option Nat :=
  let n := c.toNat
  if 48 ≤ n ∧ n ≤ 57 then some (n - 48)
  else if 97 ≤ n ∧ n ≤ 102 then some (n - 87)
  else if 65 ≤ n ∧ n ≤ 70 then some (n - 55)
  else none

/-- Digit run of Python `int(s)` after the first digit: digits, with a
single underscore allowed only between two digits. -/
def decDigitsRest (acc : Nat) : Str → Option Nat
  | [] => some acc
  | c :: rest =>
    if isDecDigit c then decDigitsRest (acc * 10 + digitVal c) rest
    else if c = '_' then
      match rest with
      | [] => none
      | d :: rest2 =>
        if isDecDigit d then decDigitsRest (acc * 10 + digitVal d) rest2 else none
    else none

/-- Nonempty digit run of Python `int(s)`: must start with a digit. -/
def decDigits : Str → Option Nat
  | [] => none
  | c :: rest => if isDecDigit c then decDigitsRest (digitVal c) rest else none

/-- Strip Python whitespace from both ends, as `int()` does. -/
def stripPySpace (s : Str) : Str :=
  ((s.dropWhile pyIsSpace).reverse.dropWhile pyIsSpace).reverse

/-- Python `int(s)` in base 10: optional surrounding whitespace, optional
sign, then a digit run with underscores strictly between digits;
`none` models the `ValueError` for anything else. -/
def pyIntDec (s : Str) : Option Int :=
  match stripPySpace s with
  | '+' :: rest => (decDigits rest).map (fun n => (n : Int))
  | '-' :: rest => (decDigits rest).map (fun n => -(n : Int))
  | t => (decDigits t).map (fun n => (n : Int))

/-- Python `int(s, 16)` on the exactly-two-character slice `value[i+2:i+4]`
taken by `unescape_argument`: two hex digits, or one hex digit with
whitespace on either side, or a sign followed by one hex digit; `none`
models the `ValueError` for anything else (non-ASCII Unicode digit forms
are outside the model's scope). -/
def pyIntHex2 (c1 c2 : Char) : Option Int :=
  match hexDigitVal c1, hexDigitVal c2 with
  | some v1, some v2 => some ((16 * v1 + v2 : Nat) : Int)
  | some v1, none => if pyIsSpace c2 then some ((v1 : Nat) : Int) else none
  | none, some v2 =>
    if pyIsSpace c1 then some ((v2 : Nat) : Int)
    else if c1 = '+' then some ((v2 : Nat) : Int)
    else if c1 = '-' then some (-(v2 : Int))
    else none
  | none, none => none

/-- The double-quote branch of `unescape_argument`: scan the interior
left to right; `none` models the early `return value` taken when a
backslash is the last character (`i + 1 >= len(value)`), which discards
the partial result.  A `\xHH` whose slice fails `int(_, 16)` (or whose
value is negative, making `chr` fail) appends the backslash itself and
resumes at the `x`. -/
def unescape_dq : Str → Option Str
  | [] => some []
  | '\\' :: [] => none
  | '\\' :: 'x' :: h1 :: h2 :: rest2 =>
    match pyIntHex2 h1 h2 with
    | some v =>
      if 0 ≤ v then (unescape_dq rest2).map (fun r => Char.ofNat v.toNat :: r)
      else (unescape_dq ('x' :: h1 :: h2 :: rest2)).map (fun r => '\\' :: r)
    | none => (unescape_dq ('x' :: h1 :: h2 :: rest2)).map (fun r => '\\' :: r)
  | '\\' :: c1 :: rest1 => (unescape_dq rest1).map (fun r => escapes_get c1 :: r)
  | c :: rest => (unescape_dq rest).map (fun r => c :: r)

/-- The single-quote branch of `unescape_argument`:
`value.replace("\\'", "'")`, i.e. left-to-right non-overlapping
replacement of the two-character sequence backslash-quote by a quote. -/
def sqUnescape : Str → Str
  | [] => []
  | '\\' :: '\'' :: rest => '\'' :: sqUnescape rest
  | c :: rest => c :: sqUnescape rest

/-- `unescape_argument` from `api.py`: tokens shorter than two characters
or not starting with a quote pass through; otherwise the first and last
characters are stripped and the interior is decoded according to the
opening quote. -/
def unescape_argument (argument : Str) : Str :=
  if argument.length < 2 then argument
  else
    match argument with
    | '"' :: rest =>
      let value := rest.dropLast
      match unescape_dq value with
      | some r => r
      | none => value
    | '\'' :: rest => sqUnescape rest.dropLast
    | _ => argument

/-- Python slicing `s[:i]` with a possibly negative bound. -/
def pySliceTo (i : Int) (s : Str) : Str :=
  if 0 ≤ i then s.take i.toNat else s.take (s.length - i.natAbs)

/-- The truncation marker appended by `snip`. -/
def signature : Str := ("... (full value snipped by the interwebz)").data

/-- `snip(value, init)` from `api.py`:
`value[:max_argument_size - init - len(signature)] + signature`. -/
def snip (value : Str) (init : Nat) : Str :=
  pySliceTo ((max_argument_size : Int) - (init : Int) - (signature.length : Int)) value
    ++ signature

/-- The per-argument step of `execute_commands`'s sanitization loop:
`argv[i] = unescape_argument(argv[i])`, then
`if len(argv[i]) > max_argument_size: argv[i] = snip(argv[i])`. -/
def sanitize_argument (a : Str) : Str :=
  let u := unescape_argument a
  if u.length > max_argument_size then snip u 0 else u

/-- The `SETBIT` rejection message (`max_offset = max_argument_size * 8`). -/
def setbit_message : Str :=
  ("offset too big - only up to " ++ toString (max_argument_size * 8) ++ " bits allowed").data

/-- The `SETRANGE` rejection message. -/
def setrange_message : Str :=
  ("offset too big - only up to " ++ toString max_argument_size ++ " bytes allowed").data

/-- The rejection message for the connection commands:
`f"the '{argv[0]}' command is not"`. -/
def connection_message (a0 : Str) : Str :=
  ("the ").data ++ ['\''] ++ a0 ++ ['\''] ++ (" command is not").data

/-- `sanitize_exceptions(argv)` from `api.py`.  The function mutates
`argv` in place (the `SETRANGE` rule), so it is modelled as returning the
pair of its Python return value and the resulting argument vector.  The
`argv = []` case is unreachable from `execute_commands` (which skips
empty argument vectors); Python would raise `IndexError` there. -/
def sanitize_exceptions (argv : List Str) : Option Str × List Str :=
  match argv with
  | [] => (none, [])
  | a0 :: _ =>
    let cmd_name := pyLower a0
    let argc := argv.length
    if cmd_name = ("setbit").data ∧ argc = 4 then
      match pyIntDec (argv.getD 2 []) with
      | some offset =>
        if offset > ((max_argument_size * 8 : Nat) : Int) then (some setbit_message, argv)
        else (none, argv)
      | none => (none, argv)
    else if cmd_name = ("setrange").data ∧ argc = 4 then
      match pyIntDec (argv.getD 2 []) with
      | some offset =>
        if offset > ((max_argument_size : Nat) : Int) then (some setrange_message, argv)
        else (none, argv.set 3 (pySliceTo (((max_argument_size : Nat) : Int) - offset + 1) (argv.getD 3 [])))
      | none => (none, argv.set 3 [])
    else if cmd_name = ("quit").data ∨ cmd_name = ("hello").data ∨
        cmd_name = ("reset").data ∨ cmd_name = ("auth").data then
      (some (connection_message a0), argv)
    else (none, argv)

/-- Store response values: the closed variant of Python values that can
reach `escape_strings` (strings, numbers, booleans, `None`, lists,
dicts).  `escape_strings` type-tests with `type(resp) is str`, `is list`,
`is dict` and passes every other type through. -/
inductive PyVal : Type where
  | str : Str → PyVal
  | int : Int → PyVal
  | boolean : Bool → PyVal
  | none_ : PyVal
  | list : List PyVal → PyVal
  | dict : List (PyVal × PyVal) → PyVal

/-- Python `str.isprintable()`, modelled for the Latin-1 range:
non-printable are the C0 controls, DEL through NBSP (0x7f-0xa0) and soft
hyphen (0xad).  Unicode separator/format/unassigned categories beyond
Latin-1 are outside the model's scope. -/
def pyIsPrintable (c : Char) : Bool :=
  let n := c.toNat
  if n < 0x20 then false
  else if 0x7f ≤ n && n ≤ 0xa0 then false
  else if n == 0xad then false
  else true

/-- Python `f'{n:02x}'`: lowercase hex, zero-padded to at least two
digits. -/
def hex02 (n : Nat) : Str :=
  let ds := Nat.toDigits 16 n
  if ds.length < 2 then '0' :: ds else ds

/-- The per-character substitution of `escape_strings`'s string branch:
backslash and double quote are backslash-escaped, a non-printable
character becomes `\xHH`, and any other character goes through
`unescapes.get(c, c)`. -/
def escapeChar (c : Char) : Str :=
  if c = '\\' then ['\\', '\\']
  else if c = '"' then ['\\', '"']
  else if ¬ pyIsPrintable c then '\\' :: 'x' :: hex02 c.toNat
  else [unescapes_get c]

/-- The accumulated `escaped` string of `escape_strings`. -/
def escStr (s : Str) : Str := (s.map escapeChar).flatten

mutual

/-- `escape_strings(resp)` from `api.py`: a string is re-escaped
character by character and wrapped in double quotes iff the result
differs from the original; lists and dict values are escaped
recursively; everything else passes through. -/
def escape_strings : PyVal → PyVal
  | .str s => let e := escStr s; if e = s then .str s else .str ('"' :: e ++ ['"'])
  | .list xs => .list (escapeList xs)
  | .dict kvs => .dict (escapeDict kvs)
  | v => v

/-- Elementwise `escape_strings` on a list response. -/
def escapeList : List PyVal → List PyVal
  | [] => []
  | x :: xs => escape_strings x :: escapeList xs

/-- `escape_strings` on each dict value, keys untouched, order kept. -/
def escapeDict : List (PyVal × PyVal) → List (PyVal × PyVal)
  | [] => []
  | (k, v) :: kvs => (k, escape_strings v) :: escapeDict kvs

end

/-- `reply(value, error)` from `api.py`. -/
structure Reply where
  value : PyVal
  error : Bool

/-- `reply(value, error)` constructor function. -/
def reply (value : PyVal) (error : Bool) : Reply := ⟨value, error⟩

/-- `deny(message)` from `api.py`:
`reply(f'{message} allowed on the interwebz', True)`. -/
def deny (message : Str) : Reply :=
  reply (.str (message ++ (" allowed on the interwebz").data)) true

/-- The denial message for an over-long argument vector. -/
def too_many_message : Str :=
  ("too many arguments - only up to " ++ toString max_arguments).data

/-- The store client, `client.execute_namespaced(session, argv)`: a state
machine over an abstract store state `σ` that either returns a response
value or raises (modelled as `Except.error` carrying `str(e)`).  The
session handle is opaque and folded into `σ`. -/
abbrev StoreExec (σ : Type) := σ → List Str → σ × Except Str PyVal

/-- The per-command body of `execute_commands` after tokenization: skip
an empty argument vector, deny an over-long one, decode and length-cap
every argument (the `stronly` check cannot fail in the model, as shlex
tokens are strings by construction), apply `sanitize_exceptions`,
dispatch, and escape the response unless the command is `INFO` or
`CLIENT INFO`.  The third component records the argument vector passed
to the store client, if the dispatch happened at all. -/
def processArgv {σ : Type} (exec : StoreExec σ) (st : σ) (argv : List Str) :
    σ × Option Reply × Option (List Str) :=
  let argc := argv.length
  if argc = 0 then (st, none, none)
  else if argc > max_arguments then (st, some (deny too_many_message), none)
  else
    let argv1 := argv.map sanitize_argument
    match sanitize_exceptions argv1 with
    | (some err, _) => (st, some (deny err), none)
    | (none, argv2) =>
      match exec st argv2 with
      | (st2, .error e) => (st2, some (reply (.str e) true), some argv2)
      | (st2, .ok resp) =>
        let resp2 :=
          if pyLower (argv2.headD []) = ("info").data ∨
              (1 < argc ∧ pyLower (argv2.headD []) = ("client").data ∧
                pyLower (argv2.getD 1 []) = ("info").data)
          then resp else escape_strings resp
        (st2, some (reply resp2 false), some argv2)

/-- One iteration of `execute_commands`'s loop: tokenize (a `ValueError`
becomes an error reply) and process the argument vector. -/
def processCommand {σ : Type} (exec : StoreExec σ) (st : σ) (command : Str) :
    σ × Option Reply × Option (List Str) :=
  match shlex_tokens command with
  | .error e => (st, some (reply (.str e) true), none)
  | .ok argv => processArgv exec st argv

/-- `execute_commands(client, session, commands)` from `api.py`,
instrumented: besides the reply list `rep` it returns the final store
state and the list of argument vectors actually dispatched to the store
client. -/
def execute_commands {σ : Type} (exec : StoreExec σ) :
    σ → List Str → σ × List Reply × List (List Str)
  | st, [] => (st, [], [])
  | st, command :: rest =>
    let out := processCommand exec st command
    let outs := execute_commands exec out.1 rest
    (outs.1, out.2.1.toList ++ outs.2.1, out.2.2.toList ++ outs.2.2)

/-- `verify_commands(commands)` from `api.py`, on the list-shaped inputs
representable in the model (the `type(commands) is not list` branch is
about transport-level shape and is not representable over `List Str`):
a batch longer than `max_batch_size` is denied. -/
def verify_commands (commands : List Str) : Option Reply :=
  if commands.length > max_batch_size then
    some (deny (("batch is too large. Only up to " ++ toString max_batch_size ++ " commands").data))
  else none

/-- Modelled from the spec: the HTTP/API transport layer that wires
`verify_commands` and `execute_commands` together is not under `src/`;
per the spec's Batch Orchestrator contract, a batch failing validation
is rejected as a whole, as a single denial, before any command is
tokenized or dispatched, and otherwise the reply list is returned.  The
second component is the dispatch log (empty when validation rejects,
because `execute_commands` is never invoked). -/
def handle_request {σ : Type} (exec : StoreExec σ) (st : σ) (commands : List Str) :
    (Reply ⊕ (σ × List Reply)) × List (List Str) :=
  match verify_commands commands with
  | some d => (.inl d, [])
  | none =>
    let out := execute_commands exec st commands
    (.inr (out.1, out.2.1), out.2.2)

/-- Whether a command line contributes a Reply: it fails to tokenize, or
tokenizes to at least one argument. -/
def producesReply (command : Str) : Bool :=
  match shlex_tokens command with
  | .error _ => true
  | .ok argv => argv.length != 0



/-! ## Helper lemmas -/

theorem sanitize_exceptions_connection (a0 : Str) (rest : List Str)
    (h : pyLower a0 = ("quit").data ∨ pyLower a0 = ("hello").data ∨
      pyLower a0 = ("reset").data ∨ pyLower a0 = ("auth").data) :
    sanitize_exceptions (a0 :: rest) = (some (connection_message a0), a0 :: rest) := by
  have hsb : ¬(pyLower a0 = ("setbit").data ∧ (a0 :: rest).length = 4) := by
    rintro ⟨h1, -⟩
    rcases h with h2 | h2 | h2 | h2 <;> rw [h1] at h2 <;> exact absurd h2 (by decide)
  have hsr : ¬(pyLower a0 = ("setrange").data ∧ (a0 :: rest).length = 4) := by
    rintro ⟨h1, -⟩
    rcases h with h2 | h2 | h2 | h2 <;> rw [h1] at h2 <;> exact absurd h2 (by decide)
  simp only [sanitize_exceptions, if_neg hsb, if_neg hsr, if_pos h]

theorem processArgv_too_many {σ : Type} (exec : StoreExec σ) (st : σ) (argv : List Str)
    (h : max_arguments < argv.length) :
    processArgv exec st argv = (st, some (deny too_many_message), none) := by
  have h0 : ¬(argv.length = 0) := by omega
  simp only [processArgv, if_neg h0, if_pos h]

theorem processArgv_policy {σ : Type} (exec : StoreExec σ) (st : σ) (argv : List Str) (msg : Str)
    (h1 : argv ≠ []) (h2 : argv.length ≤ max_arguments)
    (h3 : (sanitize_exceptions (argv.map sanitize_argument)).1 = some msg) :
    processArgv exec st argv = (st, some (deny msg), none) := by
  have h0 : ¬(argv.length = 0) := by
    simpa [List.length_eq_zero] using h1
  have h2n : ¬(argv.length > max_arguments) := by omega
  simp only [processArgv, if_neg h0, if_neg h2n]
  obtain ⟨e, argv2, hx⟩ : ∃ e a, sanitize_exceptions (argv.map sanitize_argument) = (e, a) :=
    ⟨_, _, rfl⟩
  rw [hx] at h3 ⊢
  cases e with
  | none => simp at h3
  | some m =>
    simp only [Option.some.injEq] at h3
    subst h3
    rfl

theorem processArgv_dispatch {σ : Type} (exec : StoreExec σ) (st : σ) (argv argv2 : List Str)
    (h1 : argv ≠ []) (h2 : argv.length ≤ max_arguments)
    (h3 : sanitize_exceptions (argv.map sanitize_argument) = (none, argv2)) :
    processArgv exec st argv =
      (match exec st argv2 with
       | (st2, .error e) => (st2, some (reply (.str e) true), some argv2)
       | (st2, .ok resp) =>
         (st2, some (reply (if pyLower (argv2.headD []) = ("info").data ∨
             (1 < argv.length ∧ pyLower (argv2.headD []) = ("client").data ∧
               pyLower (argv2.getD 1 []) = ("info").data)
           then resp else escape_strings resp) false), some argv2)) := by
  have h0 : ¬(argv.length = 0) := by
    simpa [List.length_eq_zero] using h1
  have h2n : ¬(argv.length > max_arguments) := by omega
  simp only [processArgv, if_neg h0, if_neg h2n, h3]

/-! ## Claims -/

/-- C1: for every argument vector whose first argument (as decoded by the
sanitization loop) lower-cases to `quit`, `hello`, `reset` or `auth`,
regardless of how many arguments follow, `sanitize_exceptions` returns
the rejection message, and the orchestrator step appends a denial Reply
(the policy denial when the argument count is within bounds, the
argument-count denial otherwise) without dispatching to the store client
and without touching the store state. -/
theorem C1_connection_commands_always_denied {σ : Type} (exec : StoreExec σ) (st : σ)
    (argv : List Str) (hne : argv ≠ [])
    (hcmd : pyLower (sanitize_argument (argv.headD [])) = ("quit").data ∨
      pyLower (sanitize_argument (argv.headD [])) = ("hello").data ∨
      pyLower (sanitize_argument (argv.headD [])) = ("reset").data ∨
      pyLower (sanitize_argument (argv.headD [])) = ("auth").data) :
    (sanitize_exceptions (argv.map sanitize_argument)).1 =
        some (connection_message (sanitize_argument (argv.headD []))) ∧
    processArgv exec st argv =
      (st, some (deny (if max_arguments < argv.length then too_many_message
        else connection_message (sanitize_argument (argv.headD [])))), none) := by
  obtain ⟨a0, rest, rfl⟩ : ∃ a b, argv = a :: b := by
    cases argv with
    | nil => exact absurd rfl hne
    | cons a b => exact ⟨a, b, rfl⟩
  simp only [List.headD_cons] at hcmd ⊢
  have hs := sanitize_exceptions_connection (sanitize_argument a0)
    (rest.map sanitize_argument) hcmd
  have hmap : (a0 :: rest).map sanitize_argument =
      sanitize_argument a0 :: rest.map sanitize_argument := rfl
  refine ⟨by rw [hmap, hs], ?_⟩
  by_cases hlen : max_arguments < (a0 :: rest).length
  · rw [if_pos hlen]
    exact processArgv_too_many exec st _ hlen
  · rw [if_neg hlen]
    refine processArgv_policy exec st _ _ (by simp) (by omega) ?_
    rw [hmap, hs]

/-- C1 witness: the concrete command `QUIT` is denied with the connection
message and never dispatched. -/
theorem C1_connection_commands_always_denied_witness :
    processArgv (fun (st : Unit) _ => (st, Except.ok PyVal.none_)) () [("QUIT").data] =
      ((), some (deny (connection_message (("QUIT").data))), none) := by
  have h := C1_connection_commands_always_denied (σ := Unit)
    (fun st _ => (st, Except.ok PyVal.none_)) () [("QUIT").data]
    (by decide) (Or.inl (by decide))
  rw [h.2]
  have h1 : sanitize_argument (("QUIT").data) = ("QUIT").data := by decide
  simp only [List.headD_cons, h1]
  rw [if_neg (by decide)]

/-- C5: for a `SETRANGE` command with exactly 4 arguments, an offset
parsing to an integer above 256 is rejected with the bounds message, an
offset of at most 256 truncates the value argument in place to
`257 - offset` bytes with no violation reported, and a non-numeric
offset clears the value argument to the empty string without rejecting. -/
theorem C5_setrange_policy (a0 a1 a2 a3 : Str) (h0 : pyLower a0 = ("setrange").data) :
    (∀ off : Int, pyIntDec a2 = some off →
      (256 < off → sanitize_exceptions [a0, a1, a2, a3] =
        (some setrange_message, [a0, a1, a2, a3])) ∧
      (off ≤ 256 → sanitize_exceptions [a0, a1, a2, a3] =
        (none, [a0, a1, a2, a3.take (257 - off).toNat]))) ∧
    (pyIntDec a2 = none → sanitize_exceptions [a0, a1, a2, a3] = (none, [a0, a1, a2, []])) := by
  have hsb : ¬(pyLower a0 = ("setbit").data ∧ ([a0, a1, a2, a3] : List Str).length = 4) := by
    rintro ⟨h1, -⟩
    rw [h0] at h1
    exact absurd h1 (by decide)
  have hsr : pyLower a0 = ("setrange").data ∧ ([a0, a1, a2, a3] : List Str).length = 4 :=
    ⟨h0, rfl⟩
  refine ⟨fun off hoff => ⟨fun hgt => ?_, fun hle => ?_⟩, fun hnone => ?_⟩
  · simp only [sanitize_exceptions, if_neg hsb, if_pos hsr, List.getD_cons_succ,
      List.getD_cons_zero, hoff]
    rw [if_pos (by simpa [max_argument_size] using hgt)]
  · simp only [sanitize_exceptions, if_neg hsb, if_pos hsr, List.getD_cons_succ,
      List.getD_cons_zero, hoff]
    rw [if_neg (by simp only [max_argument_size]; omega)]
    have harith : ((max_argument_size : Nat) : Int) - off + 1 = 257 - off := by
      simp only [max_argument_size]; omega
    have hpos : (0 : Int) ≤ 257 - off := by omega
    simp only [harith, pySliceTo, if_pos hpos]
    rfl
  · simp only [sanitize_exceptions, if_neg hsb, if_pos hsr, List.getD_cons_succ,
      List.getD_cons_zero, hnone]
    rfl

/-- C5 witness: `SETRANGE k 10 hello` keeps its short value (257 - 10
bytes is more than its length) and is not rejected; the hypothesis side
conditions are discharged at this concrete input. -/
theorem C5_setrange_policy_witness :
    sanitize_exceptions [("setrange").data, ['k'], ("10").data, ("hello").data] =
      (none, [("setrange").data, ['k'], ("10").data, ("hello").data]) := by
  have h := ((C5_setrange_policy ("setrange").data ['k'] ("10").data ("hello").data
    (by decide)).1 10 (by decide)).2 (by decide)
  rw [h]
  decide

/-- C10: a batch longer than `max_batch_size = 20` commands is rejected
by the request handler as a single denial, before any command is
tokenized, and the store client is never invoked (the dispatch log is
empty). -/
theorem C10_oversized_batch_rejected {σ : Type} (exec : StoreExec σ) (st : σ)
    (commands : List Str) (h : max_batch_size < commands.length) :
    handle_request exec st commands =
      (.inl (deny (("batch is too large. Only up to " ++ toString max_batch_size ++
        " commands").data)), []) := by
  simp only [handle_request, verify_commands, if_pos h]

/-- C10 witness: a batch of 21 blank commands is rejected whole. -/
theorem C10_oversized_batch_rejected_witness :
    handle_request (fun (st : Unit) _ => (st, Except.ok PyVal.none_)) ()
        (List.replicate 21 []) =
      (.inl (deny (("batch is too large. Only up to 20 commands").data)), []) := by
  have h := C10_oversized_batch_rejected (σ := Unit)
    (fun st _ => (st, Except.ok PyVal.none_)) () (List.replicate 21 []) (by decide)
  rw [h]
  rfl


theorem unescape_dq_backslash_other (c : Char) (rest : Str) (hcx : c ≠ 'x') :
    unescape_dq ('\\' :: c :: rest) = (unescape_dq rest).map (fun r => escapes_get c :: r) := by
  rcases rest with _ | ⟨r1, _ | ⟨r2, rest2⟩⟩
  · simp [unescape_dq, hcx]
  · simp [unescape_dq, hcx]
  · simp [unescape_dq, hcx]

theorem unescape_argument_dq (interior : Str) (t : Char) :
    unescape_argument ('"' :: interior ++ [t]) =
      (match unescape_dq interior with
       | some r => r
       | none => interior) := by
  have hlen : ¬(('"' :: (interior ++ [t])).length < 2) := by
    simp only [List.length_cons, List.length_append, List.length_singleton]
    omega
  have hdrop : (interior ++ [t]).dropLast = interior := by simp
  simp only [List.cons_append, unescape_argument, if_neg hlen, hdrop]

/-- C6: decoding the interior of a double-quoted token: a backslash
before `x` and two hex digits yields the character with that hex value;
a backslash before a named escape letter yields the escape-table entry;
a backslash before any other character (one that is neither `x` nor a
named letter) yields that character literally; and a backslash that is
the last character of the interior makes the whole interior come back
unmodified (the partial decode is discarded), rather than an error. -/
theorem C6_double_quote_escape_decoding :
    (∀ (h1 h2 : Char) (v1 v2 : Nat) (rest : Str), hexDigitVal h1 = some v1 →
      hexDigitVal h2 = some v2 →
      unescape_dq ('\\' :: 'x' :: h1 :: h2 :: rest) =
        (unescape_dq rest).map (fun r => Char.ofNat (16 * v1 + v2) :: r)) ∧
    (∀ (c d : Char) (rest : Str),
      (c, d) ∈ [('n', '\n'), ('r', '\r'), ('t', '\t'), ('b', '\x08'), ('a', '\x07')] →
      unescape_dq ('\\' :: c :: rest) = (unescape_dq rest).map (fun r => d :: r)) ∧
    (∀ (c : Char) (rest : Str), c ∉ (['x', 'n', 'r', 't', 'b', 'a'] : List Char) →
      unescape_dq ('\\' :: c :: rest) = (unescape_dq rest).map (fun r => c :: r)) ∧
    (unescape_dq ['\\'] = none) ∧
    (∀ (interior : Str) (t : Char), unescape_dq interior = none →
      unescape_argument ('"' :: interior ++ [t]) = interior) ∧
    (∀ (interior r : Str) (t : Char), unescape_dq interior = some r →
      unescape_argument ('"' :: interior ++ [t]) = r) := by
  refine ⟨?_, ?_, ?_, by decide, ?_, ?_⟩
  · intro h1 h2 v1 v2 rest hv1 hv2
    simp only [unescape_dq, pyIntHex2, hv1, hv2]
    rw [if_pos (by positivity)]
    have hv : ((16 * (v1 : Int) + (v2 : Int))).toNat = 16 * v1 + v2 := by omega
    have hv2 : (((16 * v1 + v2 : Nat) : Int)).toNat = 16 * v1 + v2 := by omega
    simp only [hv, hv2]
  · intro c d rest hmem
    simp only [List.mem_cons, List.not_mem_nil, or_false, Prod.mk.injEq] at hmem
    rcases hmem with ⟨rfl, rfl⟩ | ⟨rfl, rfl⟩ | ⟨rfl, rfl⟩ | ⟨rfl, rfl⟩ | ⟨rfl, rfl⟩ <;>
      rw [unescape_dq_backslash_other _ _ (by decide)] <;> rfl
  · intro c rest hc
    have hx : c ≠ 'x' := fun h => hc (by simp [h])
    have hn : c ≠ 'n' := fun h => hc (by simp [h])
    have hr : c ≠ 'r' := fun h => hc (by simp [h])
    have ht : c ≠ 't' := fun h => hc (by simp [h])
    have hb : c ≠ 'b' := fun h => hc (by simp [h])
    have ha : c ≠ 'a' := fun h => hc (by simp [h])
    rw [unescape_dq_backslash_other _ _ hx]
    have : escapes_get c = c := by simp [escapes_get, hn, hr, ht, hb, ha]
    rw [this]
  · intro interior t hnone
    rw [unescape_argument_dq, hnone]
  · intro interior r t hsome
    rw [unescape_argument_dq, hsome]

/-- C6 witness: `\x41` decodes to `A`, and the token `"ab\"` (interior
`ab\` ending in an unmatched backslash) comes back as that interior
unmodified. -/
theorem C6_double_quote_escape_decoding_witness :
    unescape_dq ['\\', 'x', '4', '1'] = some ['A'] ∧
    unescape_argument ('"' :: ['a', 'b', '\\'] ++ ['"']) = ['a', 'b', '\\'] := by
  obtain ⟨ha, hb, hc, hd, he, hf⟩ := C6_double_quote_escape_decoding
  refine ⟨?_, he ['a', 'b', '\\'] '"' (by decide)⟩
  rw [ha '4' '1' 4 1 [] (by decide) (by decide)]
  decide

theorem sanitize_exceptions_snd_length (argv : List Str) :
    (sanitize_exceptions argv).2.length = argv.length := by
  cases argv with
  | nil => rfl
  | cons a0 rest =>
    simp only [sanitize_exceptions]
    repeat' split
    all_goals simp [List.length_set]

/-- C8 counterexample: `CLIENT INFO x` has three arguments, yet its raw
(successful) store response bypasses escaping — the code tests
`argc > 1`, not an argument count of exactly two — and the raw response
differs from its escaped form, so the claim's "two-argument CLIENT INFO"
delimitation of the exemption is false of the code. -/
theorem C8_counterexample :
    (processArgv (fun (st : Unit) _ => (st, Except.ok (PyVal.str ['\n']))) ()
        [("client").data, ("info").data, ['x']]).2.1 =
      some (reply (.str ['\n']) false) ∧
    escape_strings (.str ['\n']) ≠ .str ['\n'] := by
  constructor
  · rfl
  · intro h
    rw [show escape_strings (.str ['\n']) = .str (("\"\\x0a\"").data) from rfl] at h
    simp only [PyVal.str.injEq] at h
    exact absurd h (by decide)

/-- C8 amended: escaping of a successful store reply is bypassed exactly
when the sanitized command is the top-level `INFO` command or a `CLIENT`
command with at least two arguments whose second argument lower-cases to
`info` (the code tests `argc > 1`, so `CLIENT INFO` with extra arguments
is also exempt); every other successful response passes through
`escape_strings` before being wrapped in a non-error Reply. -/
theorem C8_info_exemption {σ : Type} (exec : StoreExec σ) (st st2 : σ)
    (argv argv2 : List Str) (resp : PyVal)
    (h1 : argv ≠ []) (h2 : argv.length ≤ max_arguments)
    (h3 : sanitize_exceptions (argv.map sanitize_argument) = (none, argv2))
    (h4 : exec st argv2 = (st2, .ok resp)) :
    (processArgv exec st argv).2.1 =
      some (reply (if pyLower (argv2.headD []) = ("info").data ∨
          (1 < argv2.length ∧ pyLower (argv2.headD []) = ("client").data ∧
            pyLower (argv2.getD 1 []) = ("info").data)
        then resp else escape_strings resp) false) := by
  have hlen : argv2.length = argv.length := by
    have hx := sanitize_exceptions_snd_length (argv.map sanitize_argument)
    rw [h3] at hx
    simpa using hx
  rw [processArgv_dispatch exec st argv argv2 h1 h2 h3, h4, ← hlen]

/-- C8 witness: a one-argument `INFO` command returns the raw store
response unescaped. -/
theorem C8_info_exemption_witness :
    (processArgv (fun (st : Unit) _ => (st, Except.ok (PyVal.str ['\n']))) ()
        [("INFO").data]).2.1 = some (reply (.str ['\n']) false) := by
  have h := C8_info_exemption (σ := Unit) (fun st _ => (st, Except.ok (PyVal.str ['\n'])))
    () () [("INFO").data] [("INFO").data] (.str ['\n'])
    (by decide) (by decide) (by decide) rfl
  rw [h, if_pos (Or.inl (by decide))]

theorem escapeChar_length_pos (c : Char) : 1 ≤ (escapeChar c).length := by
  simp only [escapeChar]
  split_ifs <;> simp

theorem escapeChar_ne_single_length (c : Char) (h : escapeChar c ≠ [c]) :
    2 ≤ (escapeChar c).length := by
  by_cases h1 : c = '\\'
  · subst h1; decide
  by_cases h2 : c = '"'
  · subst h2; decide
  by_cases h3 : pyIsPrintable c
  · exfalso
    apply h
    have k1 : c ≠ '\n' := by rintro rfl; exact absurd h3 (by decide)
    have k2 : c ≠ '\r' := by rintro rfl; exact absurd h3 (by decide)
    have k3 : c ≠ '\t' := by rintro rfl; exact absurd h3 (by decide)
    have k4 : c ≠ '\x08' := by rintro rfl; exact absurd h3 (by decide)
    have k5 : c ≠ '\x07' := by rintro rfl; exact absurd h3 (by decide)
    simp [escapeChar, unescapes_get, h1, h2, h3, k1, k2, k3, k4, k5]
  · simp only [escapeChar, if_neg h1, if_neg h2, if_pos h3]
    simp

theorem escStr_length_le (s : Str) : s.length ≤ (escStr s).length := by
  induction s with
  | nil => simp [escStr]
  | cons a s ih =>
    have := escapeChar_length_pos a
    simp only [escStr, List.map_cons, List.flatten_cons, List.length_append,
      List.length_cons] at *
    omega

theorem escStr_length_lt (s : Str) (c : Char) (hc : c ∈ s) (h : escapeChar c ≠ [c]) :
    s.length < (escStr s).length := by
  induction s with
  | nil => simp at hc
  | cons a s ih =>
    rcases List.mem_cons.mp hc with rfl | hmem
    · have h2 := escapeChar_ne_single_length c h
      have h3 := escStr_length_le s
      simp only [escStr, List.map_cons, List.flatten_cons, List.length_append,
        List.length_cons] at *
      omega
    · have h1 := escapeChar_length_pos a
      have h2 := ih hmem
      simp only [escStr, List.map_cons, List.flatten_cons, List.length_append,
        List.length_cons] at *
      omega

theorem escStr_id (s : Str) (h : ∀ c ∈ s, escapeChar c = [c]) : escStr s = s := by
  induction s with
  | nil => rfl
  | cons a s ih =>
    have ha := h a (List.mem_cons_self a s)
    have hs := ih (fun c hc => h c (List.mem_cons_of_mem a hc))
    simp only [escStr, List.map_cons, List.flatten_cons] at *
    rw [ha, hs]
    rfl

/-- C7 counterexample: the scalar `"\n"` is escaped to `"\x0a"` (hex
form, wrapped in quotes), not to the named-letter form `"\n"` required
by the claim: the non-printable check precedes the reverse-table lookup
and every reverse-table key is non-printable. -/
theorem C7_counterexample :
    escape_strings (.str ['\n']) = .str ('"' :: '\\' :: 'x' :: '0' :: 'a' :: ['"']) ∧
    ('"' :: '\\' :: 'x' :: '0' :: 'a' :: ['"'] : Str) ≠ ('"' :: '\\' :: 'n' :: ['"'] : Str) := by
  exact ⟨rfl, by decide⟩

/-- C7 amended: scalar-string escaping re-encodes a backslash as a
doubled backslash, a double quote as backslash-quote, and every
non-printable character as `\xHH`; the characters of the escape table's
reverse mapping are all non-printable and are therefore emitted in the
`\xHH` form, never as named letters, while the reverse-mapping lookup is
reached only for printable characters, none of which are in the table,
so it passes them through unchanged; if any character was substituted
the whole result is wrapped in double quotes, and otherwise the string
is returned unchanged. -/
theorem C7_response_escaping :
    (escapeChar '\\' = ['\\', '\\']) ∧
    (escapeChar '"' = ['\\', '"']) ∧
    (∀ c : Char, pyIsPrintable c = false → escapeChar c = '\\' :: 'x' :: hex02 c.toNat) ∧
    (escapeChar '\n' = ['\\', 'x', '0', 'a'] ∧ escapeChar '\r' = ['\\', 'x', '0', 'd'] ∧
      escapeChar '\t' = ['\\', 'x', '0', '9'] ∧ escapeChar '\x08' = ['\\', 'x', '0', '8'] ∧
      escapeChar '\x07' = ['\\', 'x', '0', '7']) ∧
    (∀ c : Char, pyIsPrintable c = true → c ≠ '\\' → c ≠ '"' → escapeChar c = [c]) ∧
    (∀ s : Str, (∀ c ∈ s, escapeChar c = [c]) → escape_strings (.str s) = .str s) ∧
    (∀ (s : Str) (c : Char), c ∈ s → escapeChar c ≠ [c] →
      escape_strings (.str s) = .str ('"' :: escStr s ++ ['"'])) := by
  refine ⟨by decide, by decide, ?_, by decide, ?_, ?_, ?_⟩
  · intro c hnp
    have h1 : c ≠ '\\' := by rintro rfl; exact absurd hnp (by decide)
    have h2 : c ≠ '"' := by rintro rfl; exact absurd hnp (by decide)
    simp [escapeChar, h1, h2, hnp]
  · intro c hpr h1 h2
    have k1 : c ≠ '\n' := by rintro rfl; exact absurd hpr (by decide)
    have k2 : c ≠ '\r' := by rintro rfl; exact absurd hpr (by decide)
    have k3 : c ≠ '\t' := by rintro rfl; exact absurd hpr (by decide)
    have k4 : c ≠ '\x08' := by rintro rfl; exact absurd hpr (by decide)
    have k5 : c ≠ '\x07' := by rintro rfl; exact absurd hpr (by decide)
    simp [escapeChar, unescapes_get, h1, h2, hpr, k1, k2, k3, k4, k5]
  · intro s h
    have he := escStr_id s h
    simp [escape_strings, he]
  · intro s c hc hne
    have hlt := escStr_length_lt s c hc hne
    have hns : escStr s ≠ s := fun h => by rw [h] at hlt; omega
    simp only [escape_strings, if_neg hns]

/-- C7 witness: `abc` is returned unchanged, and a lone newline is
substituted and wrapped; the hypotheses are discharged at these concrete
inputs. -/
theorem C7_response_escaping_witness :
    escape_strings (.str ("abc").data) = .str ("abc").data ∧
    escape_strings (.str ['\n']) = .str ('"' :: escStr ['\n'] ++ ['"']) := by
  obtain ⟨-, -, -, -, -, h6, h7⟩ := C7_response_escaping
  exact ⟨h6 ("abc").data (by decide), h7 ['\n'] '\n' (by decide) (by decide)⟩

set_option maxRecDepth 10000

/-- C4 counterexample: for `SETRANGE k 100 <300 chars>`, the decoded
value argument exceeds 256 characters and is snipped to 256, but the
`SETRANGE` policy rule then truncates it in place to `257 - 100 = 157`
characters, so the argument actually forwarded to the store has length
157, not 256, and does not end with the truncation marker. -/
theorem C4_counterexample :
    max_argument_size < (unescape_argument (List.replicate 300 'a')).length ∧
    (processArgv (fun (st : Unit) _ => (st, Except.ok PyVal.none_)) ()
        [("setrange").data, ['k'], ("100").data, List.replicate 300 'a']).2.2 =
      some [("setrange").data, ['k'], ("100").data, List.replicate 157 'a'] ∧
    (List.replicate 157 'a' : Str).length ≠ max_argument_size ∧
    ¬ signature <:+ (List.replicate 157 'a' : Str) := by
  refine ⟨by decide, by decide, by decide, by decide⟩

/-- C4 amended: an argument whose decoded length exceeds 256 is
forwarded to the policy engine with length exactly 256, ending in the
truncation marker; the vector dispatched to the store is the policy
engine's output, which agrees with its input at every position other
than 3 and can differ at position 3 only for a `SETRANGE` command
(whose rule may further truncate or clear the value argument in
place). -/
theorem C4_oversized_argument_snipped :
    (∀ a : Str, max_argument_size < (unescape_argument a).length →
      (sanitize_argument a).length = max_argument_size ∧
        signature <:+ sanitize_argument a) ∧
    (∀ argv : List Str, pyLower (argv.headD []) ≠ ("setrange").data →
      (sanitize_exceptions argv).2 = argv) ∧
    (∀ (argv : List Str) (j : Nat), j ≠ 3 →
      ((sanitize_exceptions argv).2).get? j = argv.get? j) ∧
    (∀ (σ : Type) (exec : StoreExec σ) (st : σ) (argv argv2 : List Str),
      argv ≠ [] → argv.length ≤ max_arguments →
      sanitize_exceptions (argv.map sanitize_argument) = (none, argv2) →
      (processArgv exec st argv).2.2 = some argv2) := by
  refine ⟨?_, ?_, ?_, ?_⟩
  · intro a ha
    have hgt : (unescape_argument a).length > max_argument_size := ha
    simp only [sanitize_argument, if_pos hgt, snip]
    have hsig : (signature : Str).length = 41 := by decide
    have hi : ((max_argument_size : Int) - (0 : Nat) - ((signature : Str).length : Int)) = 215 := by
      rw [hsig]; decide
    rw [hi]
    simp only [pySliceTo, if_pos (by omega : (0 : Int) ≤ 215)]
    constructor
    · simp only [List.length_append, List.length_take, hsig]
      have : (215 : Int).toNat = 215 := rfl
      rw [this]
      simp only [max_argument_size] at ha ⊢
      omega
    · exact List.suffix_append _ _
  · intro argv hns
    cases argv with
    | nil => rfl
    | cons a0 rest =>
      simp only [List.headD_cons] at hns
      have hsr : ¬(pyLower a0 = ("setrange").data ∧ (a0 :: rest).length = 4) :=
        fun h => hns h.1
      simp only [sanitize_exceptions, if_neg hsr]
      repeat' split
      all_goals rfl
  · intro argv j hj
    cases argv with
    | nil => rfl
    | cons a0 rest =>
      simp only [sanitize_exceptions]
      repeat' split
      all_goals first
      | rfl
      | (exact List.get?_set_ne _ _ (by omega))
  · intro σ exec st argv argv2 h1 h2 h3
    rw [processArgv_dispatch exec st argv argv2 h1 h2 h3]
    rcases hq : exec st argv2 with ⟨st2, e | r⟩ <;> rfl

/-- C4 witness: a quote-free 300-character argument alone in its vector
is snipped to exactly 256 characters ending in the marker and dispatched
as such (no policy rule applies to the unknown command name). -/
theorem C4_oversized_argument_snipped_witness :
    (sanitize_argument (List.replicate 300 'a')).length = max_argument_size ∧
    signature <:+ sanitize_argument (List.replicate 300 'a') ∧
    (sanitize_exceptions [sanitize_argument (List.replicate 300 'a')]).2 =
      [sanitize_argument (List.replicate 300 'a')] := by
  obtain ⟨hA, hB, -, -⟩ := C4_oversized_argument_snipped
  obtain ⟨h1, h2⟩ := hA (List.replicate 300 'a') (by decide)
  exact ⟨h1, h2, hB _ (by decide)⟩

theorem processCommand_skip {σ : Type} (exec : StoreExec σ) (st : σ) (c : Str)
    (h : producesReply c = false) : processCommand exec st c = (st, none, none) := by
  unfold producesReply at h
  unfold processCommand
  rcases hx : shlex_tokens c with e | argv <;> rw [hx] at h
  · simp at h
  · simp only [bne_eq_false_iff_eq] at h
    simp [processArgv, h]

theorem processCommand_reply_isSome {σ : Type} (exec : StoreExec σ) (st : σ) (c : Str)
    (h : producesReply c = true) : (processCommand exec st c).2.1.isSome := by
  unfold producesReply at h
  unfold processCommand
  rcases hx : shlex_tokens c with e | argv <;> rw [hx] at h
  · rfl
  · simp only [bne_iff_ne, ne_eq] at h
    simp only [processArgv, if_neg h]
    split
    · rfl
    · rcases hs : sanitize_exceptions (argv.map sanitize_argument) with ⟨e2, argv2⟩
      cases e2 with
      | none =>
        dsimp only
        rcases hq : exec st argv2 with ⟨st2, e | r⟩ <;> rfl
      | some m => rfl

theorem execute_commands_append {σ : Type} (exec : StoreExec σ) (st : σ) (xs ys : List Str) :
    execute_commands exec st (xs ++ ys) =
      ((execute_commands exec (execute_commands exec st xs).1 ys).1,
       (execute_commands exec st xs).2.1 ++
         (execute_commands exec (execute_commands exec st xs).1 ys).2.1,
       (execute_commands exec st xs).2.2 ++
         (execute_commands exec (execute_commands exec st xs).1 ys).2.2) := by
  induction xs generalizing st with
  | nil => simp [execute_commands]
  | cons c cs ih =>
    simp only [List.cons_append, execute_commands, List.append_eq]
    rw [ih (processCommand exec st c).1]
    simp [List.append_assoc]

/-- C2: batch execution is total (the model is a function), and every
failure is confined to its own command: the reply stream of a batch is
the concatenation of the reply streams of its parts (so one command's
outcome never aborts the remainder), a tokenization failure yields an
error Reply carrying the `ValueError` message with no dispatch, an
over-long argument vector and a policy violation each yield a denial
Reply with no dispatch, and a store-client exception yields an error
Reply carrying the exception's message for that command alone. -/
theorem C2_batch_failure_isolation {σ : Type} (exec : StoreExec σ) :
    (∀ (st : σ) (xs ys : List Str),
      execute_commands exec st (xs ++ ys) =
        ((execute_commands exec (execute_commands exec st xs).1 ys).1,
         (execute_commands exec st xs).2.1 ++
           (execute_commands exec (execute_commands exec st xs).1 ys).2.1,
         (execute_commands exec st xs).2.2 ++
           (execute_commands exec (execute_commands exec st xs).1 ys).2.2)) ∧
    (∀ (st : σ) (c msg : Str), shlex_tokens c = .error msg →
      processCommand exec st c = (st, some (reply (.str msg) true), none)) ∧
    (∀ (st : σ) (argv : List Str), max_arguments < argv.length →
      processArgv exec st argv = (st, some (deny too_many_message), none)) ∧
    (∀ (st : σ) (argv : List Str) (msg : Str), argv ≠ [] → argv.length ≤ max_arguments →
      (sanitize_exceptions (argv.map sanitize_argument)).1 = some msg →
      processArgv exec st argv = (st, some (deny msg), none)) ∧
    (∀ (st st2 : σ) (argv argv2 : List Str) (e : Str), argv ≠ [] →
      argv.length ≤ max_arguments →
      sanitize_exceptions (argv.map sanitize_argument) = (none, argv2) →
      exec st argv2 = (st2, .error e) →
      processArgv exec st argv = (st2, some (reply (.str e) true), some argv2)) := by
  refine ⟨execute_commands_append exec, ?_, processArgv_too_many exec,
    processArgv_policy exec, ?_⟩
  · intro st c msg hx
    unfold processCommand
    rw [hx]
  · intro st st2 argv argv2 e h1 h2 h3 h4
    rw [processArgv_dispatch exec st argv argv2 h1 h2 h3, h4]

/-- C2 witness: an unterminated quote becomes a per-command error Reply
with no dispatch, and a store exception becomes an error Reply carrying
its message; both at concrete inputs, with a batch whose second half
still executes after the first half's failure. -/
theorem C2_batch_failure_isolation_witness :
    processCommand (fun (st : Unit) _ => (st, Except.error ("boom").data)) ()
        (("\"unclosed").data) =
      ((), some (reply (.str (("No closing quotation").data)) true), none) ∧
    processArgv (fun (st : Unit) _ => (st, Except.error ("boom").data)) ()
        [("get").data, ['k']] =
      ((), some (reply (.str (("boom").data)) true), some [("get").data, ['k']]) := by
  obtain ⟨-, hparse, -, -, hexc⟩ :=
    C2_batch_failure_isolation (σ := Unit) (fun st _ => (st, Except.error ("boom").data))
  refine ⟨hparse () _ _ (by decide), ?_⟩
  exact hexc () () [("get").data, ['k']] [("get").data, ['k']] (("boom").data)
    (by decide) (by decide) (by decide) rfl

/-- C9: a command line that tokenizes to zero arguments contributes no
Reply (filtering those commands out of a batch does not change the
output at all), and the reply list holds exactly one Reply per command
that fails to tokenize or tokenizes to at least one argument, in the
order those commands appear in the batch. -/
theorem C9_blank_commands_produce_no_reply {σ : Type} (exec : StoreExec σ) (st : σ)
    (commands : List Str) :
    (execute_commands exec st commands).2.1.length = commands.countP producesReply ∧
    execute_commands exec st (commands.filter producesReply) =
      execute_commands exec st commands := by
  induction commands generalizing st with
  | nil => exact ⟨rfl, rfl⟩
  | cons c cs ih =>
    by_cases h : producesReply c = true
    · obtain ⟨st1, or1, od1, hpc⟩ :
          ∃ a b d, processCommand exec st c = (a, b, d) := ⟨_, _, _, rfl⟩
      have hsome : or1.isSome := by
        have hs := processCommand_reply_isSome exec st c h
        rw [hpc] at hs
        exact hs
      obtain ⟨r, hr⟩ := Option.isSome_iff_exists.mp hsome
      subst hr
      rw [List.filter_cons_of_pos h]
      obtain ⟨h1, h2⟩ := ih st1
      constructor
      · simp [execute_commands, hpc, h1, List.countP_cons, h]
      · simp [execute_commands, hpc, h2]
    · have hb : producesReply c = false := by simpa using h
      have hpc := processCommand_skip exec st c hb
      rw [List.filter_cons_of_neg (by simpa using h)]
      obtain ⟨h1, h2⟩ := ih st
      constructor
      · simp [execute_commands, hpc, h1, List.countP_cons, hb]
      · simp [execute_commands, hpc, h2]

theorem shlexIsWord_class (c : Char) (h : shlexIsWord c = true) :
    shlexIsSpace c = false ∧ c ≠ '#' ∧ shlexIsQuote c = false := by
  have h1 : c ≠ ' ' := by rintro rfl; exact absurd h (by decide)
  have h2 : c ≠ '\t' := by rintro rfl; exact absurd h (by decide)
  have h3 : c ≠ '\r' := by rintro rfl; exact absurd h (by decide)
  have h4 : c ≠ '\n' := by rintro rfl; exact absurd h (by decide)
  have h5 : c ≠ '#' := by rintro rfl; exact absurd h (by decide)
  have h6 : c ≠ '\'' := by rintro rfl; exact absurd h (by decide)
  have h7 : c ≠ '"' := by rintro rfl; exact absurd h (by decide)
  refine ⟨?_, h5, ?_⟩ <;>
    simp [shlexIsSpace, shlexIsQuote, h1, h2, h3, h4, h6, h7]

theorem lexCommentWs_no_newline (rest : Str) (h : '\n' ∉ rest) : lexCommentWs rest = .ok [] := by
  induction rest with
  | nil => rfl
  | cons c cs ih =>
    have hc : c ≠ '\n' := fun he => h (he ▸ List.mem_cons_self c cs)
    simp only [lexCommentWs, if_neg hc]
    exact ih (fun hm => h (List.mem_cons_of_mem c hm))

theorem lexQuote_no_quote (q : Char) (tok body rest : Str) (hb : q ∉ body) :
    lexQuote q tok (body ++ rest) = lexQuote q (tok ++ body) rest := by
  induction body generalizing tok with
  | nil => simp
  | cons c cs ih =>
    have hc : c ≠ q := fun he => hb (he ▸ List.mem_cons_self c cs)
    simp only [List.cons_append, List.append_eq, lexQuote, if_neg hc]
    rw [ih (tok ++ [c]) (fun hm => hb (List.mem_cons_of_mem c hm))]
    congr 1
    simp

theorem lexWord_word_run (tok w rest : Str) (hw : ∀ c ∈ w, shlexIsWord c = true) :
    lexWord tok (w ++ rest) = lexWord (tok ++ w) rest := by
  induction w generalizing tok with
  | nil => simp
  | cons c cs ih =>
    have hcw := hw c (List.mem_cons_self c cs)
    obtain ⟨hsp, hh, -⟩ := shlexIsWord_class c hcw
    simp only [List.cons_append, List.append_eq, lexWord, hsp, Bool.false_eq_true, if_false,
      if_neg hh, hcw, Bool.true_or, if_true]
    rw [ih (tok ++ [c]) (fun d hd => hw d (List.mem_cons_of_mem c hd))]
    congr 1
    simp

theorem shlex_tokens_word (w : Str) (hne : w ≠ []) (hw : ∀ c ∈ w, shlexIsWord c = true) :
    shlex_tokens w = .ok [w] := by
  cases w with
  | nil => exact absurd rfl hne
  | cons c cs =>
    have hcw := hw c (List.mem_cons_self c cs)
    obtain ⟨hsp, hh, hq⟩ := shlexIsWord_class c hcw
    show lexWs (c :: cs) = .ok [c :: cs]
    simp only [lexWs, hsp, Bool.false_eq_true, if_false, if_neg hh, hcw, if_true, hq]
    have := lexWord_word_run [c] cs [] (fun d hd => hw d (List.mem_cons_of_mem c hd))
    rw [List.append_nil] at this
    rw [this]
    rfl

/-- C3 counterexample: the tokenizer the code actually runs (a fresh
non-POSIX `shlex(command, True)`; the second positional argument is
`infile`, so the POSIX-configured lexer of lines 120-122 is discarded)
treats `#` as a comment character — `a #b` tokenizes to `[a]`, not to
`[a, #b]` as the claim's disabled-comment rule requires — and keeps the
quotes in a quoted token — `"hi"` tokenizes to `["hi"]` with the quotes,
not to `[hi]` with the quotes stripped. -/
theorem C3_counterexample :
    shlex_tokens ("a #b").data = .ok [['a']] ∧
    (Except.ok [['a']] : Except Str (List Str)) ≠
      .ok [['a'], ['#', 'b']] ∧
    shlex_tokens ("\"hi\"").data = .ok [('"' :: 'h' :: 'i' :: ['"'])] ∧
    (Except.ok [('"' :: 'h' :: 'i' :: ['"'])] : Except Str (List Str)) ≠
      .ok [['h', 'i']] :=
  ⟨by decide, by decide, by decide, by decide⟩

/-- C3 amended: tokenization uses shlex with default non-POSIX settings
(the configured POSIX lexer with comments disabled is built but never
used): a maximal run of ASCII letters, digits and underscores is one
word; two such runs separated by a space are two tokens; a token opened
by a double quote runs to the matching quote and retains both quotes; a
`#` outside words and quotes starts a comment that consumes the rest of
the line; and an unterminated quote fails with the parse error `No
closing quotation` rather than producing tokens. -/
theorem C3_tokenizer_behavior :
    (∀ w : Str, w ≠ [] → (∀ c ∈ w, shlexIsWord c = true) → shlex_tokens w = .ok [w]) ∧
    (∀ w1 w2 : Str, w1 ≠ [] → w2 ≠ [] → (∀ c ∈ w1, shlexIsWord c = true) →
      (∀ c ∈ w2, shlexIsWord c = true) →
      shlex_tokens (w1 ++ ' ' :: w2) = .ok [w1, w2]) ∧
    (∀ body : Str, '"' ∉ body →
      shlex_tokens ('"' :: body ++ ['"']) = .ok [('"' :: body) ++ ['"']]) ∧
    (∀ rest : Str, '\n' ∉ rest → shlex_tokens ('#' :: rest) = .ok []) ∧
    (∀ body : Str, '"' ∉ body →
      shlex_tokens ('"' :: body) = .error (("No closing quotation").data)) := by
  refine ⟨shlex_tokens_word, ?_, ?_, ?_, ?_⟩
  · intro w1 w2 h1 h2 hw1 hw2
    cases w1 with
    | nil => exact absurd rfl h1
    | cons c cs =>
      have hcw := hw1 c (List.mem_cons_self c cs)
      obtain ⟨hsp, hh, hq⟩ := shlexIsWord_class c hcw
      show lexWs (c :: (cs ++ ' ' :: w2)) = .ok [c :: cs, w2]
      simp only [lexWs, hsp, Bool.false_eq_true, if_false, if_neg hh, hcw, if_true, hq]
      rw [lexWord_word_run [c] cs (' ' :: w2) (fun d hd => hw1 d (List.mem_cons_of_mem c hd))]
      have hstep : lexWord ([c] ++ cs) (' ' :: w2) =
          (lexWs w2).map (fun ts => (([c] ++ cs)) :: ts) := rfl
      rw [hstep]
      have hx : lexWs w2 = .ok [w2] := shlex_tokens_word w2 h2 hw2
      rw [hx]
      rfl
  · intro body hb
    show lexWs ('"' :: (body ++ ['"'])) = _
    have hstep : lexWs ('"' :: (body ++ ['"'])) = lexQuote '"' ['"'] (body ++ ['"']) := rfl
    rw [hstep, lexQuote_no_quote '"' ['"'] body ['"'] hb]
    rfl
  · intro rest h
    show lexWs ('#' :: rest) = _
    have hstep : lexWs ('#' :: rest) = lexCommentWs rest := rfl
    rw [hstep]
    exact lexCommentWs_no_newline rest h
  · intro body hb
    show lexWs ('"' :: body) = _
    have hstep : lexWs ('"' :: body) = lexQuote '"' ['"'] body := rfl
    rw [hstep]
    have h2 := lexQuote_no_quote '"' ['"'] body [] hb
    rw [List.append_nil] at h2
    rw [h2]
    rfl

/-- C3 witness: each clause of the amended behavior at a concrete input:
`abc` is one word, `ab cd` two, `"hi"` keeps its quotes, `#xy` is all
comment, `"ab` is an unterminated-quote error. -/
theorem C3_tokenizer_behavior_witness :
    shlex_tokens ("abc").data = .ok [("abc").data] ∧
    shlex_tokens ("ab cd").data = .ok [("ab").data, ("cd").data] ∧
    shlex_tokens ("\"hi\"").data = .ok [("\"hi\"").data] ∧
    shlex_tokens ("#xy").data = .ok [] ∧
    shlex_tokens ("\"ab").data = .error (("No closing quotation").data) := by
  obtain ⟨t1, t2, t3, t4, t5⟩ := C3_tokenizer_behavior
  refine ⟨t1 ("abc").data (by decide) (by decide), ?_, ?_, ?_, ?_⟩
  · have := t2 ("ab").data ("cd").data (by decide) (by decide) (by decide) (by decide)
    exact this
  · have := t3 ['h', 'i'] (by decide)
    exact this
  · exact t4 ['x', 'y'] (by decide)
  · have := t5 ['a', 'b'] (by decide)
    exact this

end Interwebz
